import Mathlib

/-!
# Verification of the ai-meeting session-continuity core

Shallow embedding of the session controller, capture pipeline, playback
scheduler and transcript assembler of `src/App.tsx` (with the shared types of
`src/unnamed/part_000`), together with theorems settling the frozen claims
about the natural-language specification of the repository.

The controller is modelled as a deterministic step function over an explicit
state record, driven by a trace of events (user actions, timer firings,
connection callbacks, capture callbacks and inbound stream messages), matching
the single sequential event loop of the browser runtime.  Real-time delays are
modelled by recording which timers are armed (and with which delay) and by
separate timer-firing events.
-/

namespace AiMeeting

/-- Transcript record role, from the `type` field of `Transcription` in
`src/unnamed/part_000` (`'user' | 'model'`). -/
inductive Role where
  | user
  | model
  deriving DecidableEq, Repr

/-- A finalized transcript record (`Transcription` in `src/unnamed/part_000`).
The random `id` of the source is modelled as a fresh counter value; the wall
clock `timestamp` carries no information the claims depend on and is elided. -/
structure Transcription where
  id : Nat
  type : Role
  text : String
  deriving DecidableEq, Repr

/-- The connection status record of `src/App.tsx` (`TranslationState` in
`src/unnamed/part_000`): three boolean flags plus an optional error. -/
structure TranslationState where
  isActive : Bool
  isConnecting : Bool
  isReconnecting : Bool
  error : Option String
  deriving DecidableEq, Repr

/-- `SESSION_MAX_DURATION = 4.5 * 60 * 1000` (src/App.tsx line 9), in ms. -/
def SESSION_MAX_DURATION : Nat := 270000

/-- The fixed backoff of the rotation retry `setTimeout(…, 5000)`
(src/App.tsx line 232), in ms. -/
def ROTATION_RETRY_DELAY : Nat := 5000

/-! ## Audio codec

Modelled from the spec: the functions `createBlob` / `decode` /
`decodeAudioData` live in `utils/audio-utils`, which is not part of the
source tree; only their call sites in `src/App.tsx` are.  The definitions
below follow spec section 4.1 word for word: clamp each sample to `[-1, 1]`,
scale to a 16-bit signed integer, pack little-endian, base64-frame the bytes
and tag with sample rate and channel count; decoding is the inverse and fails
on a byte length that is not a multiple of the sample width. -/

/-- Clamp a sample to the legal range `[-1, 1]`. -/
def clampSample (x : ℚ) : ℚ := max (-1) (min 1 x)

/-- Scale a (clamped) sample to a 16-bit signed integer. -/
def sampleToInt16 (x : ℚ) : ℤ := ⌊clampSample x * 32767⌋

/-- Normalize a 16-bit signed integer back to a rational sample. -/
def int16ToSample (i : ℤ) : ℚ := (i : ℚ) / 32767

/-- Pack a 16-bit signed integer into two bytes, little-endian
(low byte first). -/
def int16ToBytes (i : ℤ) : Nat × Nat :=
  ((i % 65536).toNat % 256, (i % 65536).toNat / 256)

/-- Read a little-endian byte pair back as a 16-bit signed integer
(two's complement). -/
def bytesToInt16 (lo hi : Nat) : ℤ :=
  if lo + 256 * hi < 32768 then ((lo + 256 * hi : Nat) : ℤ)
  else ((lo + 256 * hi : Nat) : ℤ) - 65536

/-- The standard base64 alphabet. -/
def base64Alphabet : List Char :=
  ['A', 'B', 'C', 'D', 'E', 'F', 'G', 'H', 'I', 'J', 'K', 'L', 'M',
   'N', 'O', 'P', 'Q', 'R', 'S', 'T', 'U', 'V', 'W', 'X', 'Y', 'Z',
   'a', 'b', 'c', 'd', 'e', 'f', 'g', 'h', 'i', 'j', 'k', 'l', 'm',
   'n', 'o', 'p', 'q', 'r', 's', 't', 'u', 'v', 'w', 'x', 'y', 'z',
   '0', '1', '2', '3', '4', '5', '6', '7', '8', '9', '+', '/']

/-- The base64 digit for a sextet value. -/
def base64Char (n : Nat) : Char := base64Alphabet.getD n '?'

/-- The sextet value of a base64 digit, `none` for characters outside the
alphabet (in particular for the padding character). -/
def base64CharIndex (c : Char) : Option Nat :=
  base64Alphabet.findIdx? (· == c)

/-- Standard base64 encoding of a byte sequence, with padding. -/
def base64Encode : List Nat → List Char
  | [] => []
  | [b1] => [base64Char (b1 / 4), base64Char (b1 % 4 * 16), '=', '=']
  | [b1, b2] =>
      [base64Char (b1 / 4), base64Char (b1 % 4 * 16 + b2 / 16),
       base64Char (b2 % 16 * 4), '=']
  | b1 :: b2 :: b3 :: rest =>
      base64Char (b1 / 4) :: base64Char (b1 % 4 * 16 + b2 / 16) ::
      base64Char (b2 % 16 * 4 + b3 / 64) :: base64Char (b3 % 64) ::
      base64Encode rest

/-- Standard base64 decoding; `none` on malformed input. -/
def base64Decode : List Char → Option (List Nat)
  | [] => some []
  | c1 :: c2 :: c3 :: c4 :: rest =>
      if c3 = '=' then
        if c4 = '=' ∧ rest = [] then
          match base64CharIndex c1, base64CharIndex c2 with
          | some n1, some n2 => some [n1 * 4 + n2 / 16]
          | _, _ => none
        else none
      else if c4 = '=' then
        if rest = [] then
          match base64CharIndex c1, base64CharIndex c2, base64CharIndex c3 with
          | some n1, some n2, some n3 =>
              some [n1 * 4 + n2 / 16, n2 % 16 * 16 + n3 / 4]
          | _, _, _ => none
        else none
      else
        match base64CharIndex c1, base64CharIndex c2, base64CharIndex c3,
              base64CharIndex c4, base64Decode rest with
        | some n1, some n2, some n3, some n4, some tail =>
            some ((n1 * 4 + n2 / 16) :: (n2 % 16 * 16 + n3 / 4) ::
                  (n3 % 4 * 64 + n4) :: tail)
        | _, _, _, _, _ => none
  | _ => none

/-- The two little-endian bytes of one encoded sample. -/
def sampleBytes (x : ℚ) : List Nat :=
  [(int16ToBytes (sampleToInt16 x)).1, (int16ToBytes (sampleToInt16 x)).2]

/-- A transport frame: base64 payload tagged with sample rate and channel
count (the `createBlob` result shape of spec section 4.1). -/
structure TransportFrame where
  data : List Char
  mimeSampleRate : Nat
  channels : Nat
  deriving DecidableEq, Repr

/-- Modelled from the spec: `encodeForTransport` (the `createBlob` of
`utils/audio-utils`, absent from the source tree) clamps each sample, scales
to 16-bit signed integers, packs little-endian, base64-frames the bytes and
tags the frame with sample rate and channel count. -/
def encodeForTransport (samples : List ℚ) : TransportFrame :=
  { data := base64Encode (samples.flatMap sampleBytes),
    mimeSampleRate := 16000,
    channels := 1 }

/-- Group a byte list into little-endian pairs; `none` when the byte length
is not a multiple of the 2-byte sample width (`MalformedFrame`). -/
def pairBytes : List Nat → Option (List (Nat × Nat))
  | [] => some []
  | _ :: [] => none
  | lo :: hi :: rest => (pairBytes rest).map (fun ps => (lo, hi) :: ps)

/-- Modelled from the spec: `decodeFromTransport` (the `decode` /
`decodeAudioData` pair of `utils/audio-utils`, absent from the source tree)
un-frames the base64 payload and rebuilds the normalized sample buffer,
failing on malformed frames. -/
def decodeFromTransport (f : TransportFrame) : Option (List ℚ) :=
  match base64Decode f.data with
  | none => none
  | some bytes =>
      (pairBytes bytes).map (List.map fun p => int16ToSample (bytesToInt16 p.1 p.2))

/-! ## Playback scheduler (src/App.tsx lines 163-174)

`scheduleAudio` is the timestamp computation of the inbound-audio branch of
`onmessage`: `nextStartTimeRef.current = Math.max(nextStartTimeRef.current,
ctx.currentTime)`, the buffer is started at that value, and
`nextStartTimeRef.current += audioBuffer.duration`.  The first component is
the start timestamp of the buffer, the second the new next-free timestamp. -/
def scheduleAudio (nextFree clock duration : ℚ) : ℚ × ℚ :=
  (max nextFree clock, max nextFree clock + duration)

/-- The start timestamps the scheduler assigns to a sequence of buffers,
each given as (output-clock time at arrival, duration). -/
def computeStarts (nextFree : ℚ) : List (ℚ × ℚ) → List ℚ
  | [] => []
  | (clock, d) :: rest =>
      (scheduleAudio nextFree clock d).1 ::
      computeStarts (scheduleAudio nextFree clock d).2 rest

/-! ## Session controller state (src/App.tsx lines 11-49) -/

/-- An in-flight `startTranslation` invocation: the handle id its
`ai.live.connect` call will produce on confirmed open, and the `isRotation`
argument of the invocation. -/
structure Attempt where
  id : Nat
  isRotation : Bool
  deriving DecidableEq, Repr

/-- The mutable state of the `App` component relevant to the core: React
state (`status`, `transcriptions`, `sessionAge`), the refs of lines 26-42,
and bookkeeping for verification (the multiset of `close()` calls issued,
the set of handles opened and not yet closed, the log of `sendRealtimeInput`
emissions and the log of scheduled playback starts). -/
structure AppState where
  status : TranslationState
  transcriptions : List Transcription
  sessionAge : Nat
  /-- `nextStartTimeRef` -/
  nextStartTime : ℚ
  /-- size of `sourcesRef`, the set of scheduled not-yet-finished buffers -/
  sources : Nat
  /-- `sessionRef`: the single mutable session slot, by handle id -/
  sessionRef : Option Nat
  /-- `isUserInitiatedStop` -/
  isUserInitiatedStop : Bool
  /-- `rotationTimerRef`: the armed rotation deadline (delay in ms) -/
  rotationTimer : Option Nat
  /-- anonymous rotation-retry timeouts armed by the catch block (delays) -/
  retryTimers : List Nat
  /-- whether `scriptProcessorRef` holds a connected processor -/
  scriptProcessor : Bool
  /-- `currentInputTransRef` -/
  currentInputTrans : String
  /-- `currentOutputTransRef` -/
  currentOutputTrans : String
  /-- in-flight `startTranslation` invocations whose outcome is pending -/
  pending : List Attempt
  /-- handles confirmed open and not yet closed -/
  openHandles : List Nat
  /-- log of handles on which `close()` was called, in order -/
  closedHandles : List Nat
  /-- log of capture emissions: (chunk counter, handle the chunk was sent to) -/
  sent : List (Nat × Nat)
  /-- log of scheduled playback buffers: (start timestamp, duration) -/
  startLog : List (ℚ × ℚ)
  nextHandleId : Nat
  nextRecId : Nat
  chunkCount : Nat
  deriving DecidableEq, Repr

/-- `cleanupAudio` (src/App.tsx lines 51-67): disconnect the script
processor, close the audio contexts, stop every scheduled buffer, clear the
pending set and reset the next-free timestamp to zero. -/
def cleanupAudio (s : AppState) : AppState :=
  { s with scriptProcessor := false, sources := 0, nextStartTime := 0 }

/-- The synchronous prefix of `startTranslation` (src/App.tsx lines 81-114)
up to the issuance of `ai.live.connect`: set the flags and status for the
initial or the background-rotation case, clean up audio only in the initial
case, and register the in-flight connect attempt. -/
def startConnect (isRot : Bool) (s : AppState) : AppState :=
  let s1 :=
    if isRot then
      { s with status := { s.status with isReconnecting := true } }
    else
      cleanupAudio
        { s with isUserInitiatedStop := false,
                 status := { s.status with isConnecting := true, error := none } }
  { s1 with pending := s1.pending ++ [⟨s1.nextHandleId, isRot⟩],
            nextHandleId := s1.nextHandleId + 1 }

/-- The `onopen` callback together with the immediately following
`sessionPromise.then` microtask (src/App.tsx lines 117-159): install the new
session in the slot, close the old one if it differs, set the status to
active, reset the session age, re-arm the rotation timer and (re)create the
script processor. -/
def applyOpen (a : Attempt) (s : AppState) : AppState :=
  let s1 :=
    { s with pending := s.pending.erase a,
             sessionRef := some a.id,
             openHandles := a.id :: s.openHandles,
             status := ⟨true, false, false, none⟩,
             sessionAge := 0,
             rotationTimer := some SESSION_MAX_DURATION,
             scriptProcessor := true }
  match s.sessionRef with
  | some old =>
      if old ≠ a.id then
        { s1 with openHandles := s1.openHandles.erase old,
                  closedHandles := s1.closedHandles ++ [old] }
      else s1
  | none => s1

/-- The records emitted by a turn-completion event (src/App.tsx lines
180-189): trim both turn buffers and emit a user record and then a model
record, skipping whichever side is empty after trimming. -/
def turnRecords (s : AppState) : List Transcription :=
  (if s.currentInputTrans.trim ≠ "" then
    [⟨s.nextRecId, Role.user, s.currentInputTrans.trim⟩] else []) ++
  (if s.currentOutputTrans.trim ≠ "" then
    [⟨s.nextRecId + 1, Role.model, s.currentOutputTrans.trim⟩] else [])

/-- The `onmessage` callback (src/App.tsx lines 161-193): schedule an inbound
audio chunk if present, append any inbound partial text to the turn buffers,
and on `turnComplete` emit the finalized records and clear both buffers. -/
def applyMessage (audio : Option (ℚ × ℚ)) (inT outT : Option String)
    (tc : Bool) (s : AppState) : AppState :=
  let s1 :=
    match audio with
    | none => s
    | some (clock, d) =>
        { s with nextStartTime := (scheduleAudio s.nextStartTime clock d).2,
                 sources := s.sources + 1,
                 startLog := s.startLog ++ [((scheduleAudio s.nextStartTime clock d).1, d)] }
  let s2 :=
    { s1 with currentInputTrans := s1.currentInputTrans ++ inT.getD "",
              currentOutputTrans := s1.currentOutputTrans ++ outT.getD "" }
  if tc then
    { s2 with transcriptions := s2.transcriptions ++ turnRecords s2,
              currentInputTrans := "",
              currentOutputTrans := "",
              nextRecId := s2.nextRecId + 2 }
  else s2

/-- The events of the single sequential browser event loop driving the
component: user actions through the rendering layer, timer callbacks, the
connect outcome callbacks, the transport callbacks of a handle, the capture
callback and playback completion. -/
inductive Event where
  /-- the start button; rendered only while neither active, connecting nor
  reconnecting (src/App.tsx lines 377-383) -/
  | userStart
  /-- the stop button (`stopTranslation`, src/App.tsx lines 69-79) -/
  | userStop
  /-- the rotation timer callback (src/App.tsx lines 133-135) -/
  | timerFire
  /-- a rotation-retry timeout callback (src/App.tsx line 232) -/
  | retryFire
  /-- the catch block of `startTranslation` ran for an in-flight attempt
  (src/App.tsx lines 225-234) -/
  | connectFailed (a : Attempt) (msg : String)
  /-- the `onopen` callback ran for an in-flight attempt -/
  | openConfirmed (a : Attempt)
  /-- the transport reported a handle closed (`onclose`, src/App.tsx lines
  194-200); fires both for deliberate `close()` calls and unexpected drops -/
  | handleClosed (h : Nat)
  /-- the `onerror` callback (src/App.tsx lines 201-206) of a session
  created with the given `isRotation` flag -/
  | sessionError (fromRotation : Bool)
  /-- one `onaudioprocess` capture callback (src/App.tsx lines 143-155) -/
  | audioChunk
  /-- the occasional session-age UI update inside the capture callback
  (src/App.tsx lines 152-154), with the computed age -/
  | ageTick (n : Nat)
  /-- an inbound `onmessage` with optional audio part (output-clock time at
  arrival, duration), optional input/output transcription text and the
  `turnComplete` flag -/
  | message (audio : Option (ℚ × ℚ)) (inT outT : Option String) (tc : Bool)
  /-- a scheduled buffer finished playing (`source.onended`) -/
  | bufferEnded
  deriving DecidableEq, Repr

/-- One step of the event loop. -/
def step (s : AppState) : Event → AppState
  | .userStart =>
      if s.status.isActive || s.status.isConnecting || s.status.isReconnecting
      then s
      else startConnect false s
  | .userStop =>
      let s1 := { s with isUserInitiatedStop := true, rotationTimer := none }
      let s2 :=
        match s1.sessionRef with
        | some h =>
            { s1 with sessionRef := none,
                      openHandles := s1.openHandles.erase h,
                      closedHandles := s1.closedHandles ++ [h] }
        | none => s1
      { cleanupAudio s2 with status := ⟨false, false, false, none⟩, sessionAge := 0 }
  | .timerFire =>
      match s.rotationTimer with
      | none => s
      | some _ =>
          let s1 := { s with rotationTimer := none }
          if s1.isUserInitiatedStop then s1 else startConnect true s1
  | .retryFire =>
      match s.retryTimers with
      | [] => s
      | _ :: rest =>
          let s1 := { s with retryTimers := rest }
          if s1.isUserInitiatedStop then s1 else startConnect true s1
  | .connectFailed a msg =>
      if a ∈ s.pending then
        let s1 := { s with pending := s.pending.erase a }
        if a.isRotation then
          { s1 with status := { s1.status with isReconnecting := false },
                    retryTimers := s1.retryTimers ++ [ROTATION_RETRY_DELAY] }
        else
          { s1 with status := ⟨false, false, false, some msg⟩ }
      else s
  | .openConfirmed a => if a ∈ s.pending then applyOpen a s else s
  | .handleClosed h =>
      if h ∈ s.openHandles ∨ h ∈ s.closedHandles then
        let s1 := { s with openHandles := s.openHandles.erase h }
        if !s1.isUserInitiatedStop && !s1.status.isReconnecting
        then startConnect true s1
        else s1
      else s
  | .sessionError fromRotation =>
      if fromRotation then
        { s with status := { s.status with isReconnecting := false } }
      else s
  | .audioChunk =>
      if s.scriptProcessor then
        let s1 :=
          match s.sessionRef with
          | some h =>
              if s.isUserInitiatedStop then s
              else { s with sent := s.sent ++ [(s.chunkCount, h)] }
          | none => s
        { s1 with chunkCount := s1.chunkCount + 1 }
      else s
  | .ageTick n => if s.scriptProcessor then { s with sessionAge := n } else s
  | .message audio inT outT tc => applyMessage audio inT outT tc s
  | .bufferEnded =>
      if 0 < s.sources then { s with sources := s.sources - 1 } else s

/-- The component's initial state (src/App.tsx lines 14-42). -/
def initialState : AppState :=
  { status := ⟨false, false, false, none⟩,
    transcriptions := [],
    sessionAge := 0,
    nextStartTime := 0,
    sources := 0,
    sessionRef := none,
    isUserInitiatedStop := true,
    rotationTimer := none,
    retryTimers := [],
    scriptProcessor := false,
    currentInputTrans := "",
    currentOutputTrans := "",
    pending := [],
    openHandles := [],
    closedHandles := [],
    sent := [],
    startLog := [],
    nextHandleId := 0,
    nextRecId := 0,
    chunkCount := 0 }

/-- Run a trace of events from a state. -/
def runFrom (s : AppState) (es : List Event) : AppState :=
  es.foldl step s

/-- Run a trace of events from the initial state. -/
def runTrace (es : List Event) : AppState :=
  runFrom initialState es

/-! ## Predicates used by the claims -/

/-- An inbound streamed partial-text message: no audio part and no
turn-completion flag. -/
def turnTextEvent : Event → Bool
  | .message none _ _ false => true
  | _ => false

/-- The spec's reading of the status record as an enumeration: each boolean
flag names one of the states `connecting`, `active`, `reconnecting`, and
`idle` is the absence of all three.  Exactly one of the four states holds
iff at most one flag is set. -/
def exactlyOneOfFour (st : TranslationState) : Prop :=
  (if st.isActive then 1 else 0) + (if st.isConnecting then 1 else 0) +
    (if st.isReconnecting then 1 else 0) ≤ 1

/-- Events that do not write the session slot: everything except a confirmed
open (which swaps the slot) and a user stop (which clears it). -/
def slotNeutral : Event → Bool
  | .openConfirmed _ => false
  | .userStop => false
  | _ => true

/-- Structural invariant of the controller state: handle ids handed to
attempts are fresh and distinct, a handle is never the target of two
`close()` calls, and every handle that is confirmed open and not yet closed
is the one in the session slot. -/
structure Inv (s : AppState) : Prop where
  pendFresh : ∀ a ∈ s.pending, a.id < s.nextHandleId
  pendNodup : (s.pending.map Attempt.id).Nodup
  openFresh : ∀ h ∈ s.openHandles, h < s.nextHandleId
  closedFresh : ∀ h ∈ s.closedHandles, h < s.nextHandleId
  slotFresh : ∀ h, s.sessionRef = some h → h < s.nextHandleId
  closedNodup : s.closedHandles.Nodup
  slotNotClosed : ∀ h, s.sessionRef = some h → h ∉ s.closedHandles
  pendNotClosed : ∀ a ∈ s.pending, a.id ∉ s.closedHandles
  pendNotOpen : ∀ a ∈ s.pending, a.id ∉ s.openHandles
  pendNotSlot : ∀ a ∈ s.pending, s.sessionRef ≠ some a.id
  openNodup : s.openHandles.Nodup
  openSlot : ∀ h ∈ s.openHandles, s.sessionRef = some h

/-- Start, confirmed initial open of handle 0, rotation timer fires (a
rotation attempt for handle 1 is now in flight), user stop while the
rotation is mid-flight, then the belated confirmed open of handle 1. -/
def stopMidRotationTrace : List Event :=
  [.userStart, .openConfirmed ⟨0, false⟩, .timerFire, .userStop,
   .openConfirmed ⟨1, true⟩]

/-- Start, confirmed initial open of handle 0, rotation timer fires, the
replacement handle 1 opens (deliberately closing the retiring handle 0),
then the transport acknowledges handle 0's closure via its `onclose`. -/
def retiringCloseTrace : List Event :=
  [.userStart, .openConfirmed ⟨0, false⟩, .timerFire,
   .openConfirmed ⟨1, true⟩, .handleClosed 0]

/-- Start, confirmed initial open of handle 0, rotation timer fires: a
rotation attempt for handle 1 is now in flight while handle 0 keeps the
session slot. -/
def rotationWindowTrace : List Event :=
  [.userStart, .openConfirmed ⟨0, false⟩, .timerFire]

/-! ## Generic trace lemmas -/

theorem runFrom_nil (s : AppState) : runFrom s [] = s := rfl

theorem runFrom_cons (s : AppState) (e : Event) (es : List Event) :
    runFrom s (e :: es) = runFrom (step s e) es := rfl

theorem runFrom_pres {P : AppState → Prop}
    (hstep : ∀ s e, P s → P (step s e)) :
    ∀ (es : List Event) (s : AppState), P s → P (runFrom s es) := by
  intro es
  induction es with
  | nil => intro s hs; exact hs
  | cons e rest ih =>
      intro s hs
      rw [runFrom_cons]
      exact ih _ (hstep s e hs)

/-! ## Playback scheduler lemmas (claim C4) -/

theorem computeStarts_ge (bufs : List (ℚ × ℚ)) :
    ∀ nf : ℚ, (∀ b ∈ bufs, 0 ≤ b.2) → ∀ x ∈ computeStarts nf bufs, nf ≤ x := by
  induction bufs with
  | nil => intro nf _ x hx; simp [computeStarts] at hx
  | cons b rest ih =>
      intro nf hd x hx
      obtain ⟨clock, d⟩ := b
      have hd0 : (0 : ℚ) ≤ d := hd (clock, d) (List.mem_cons_self _ _)
      simp only [computeStarts, scheduleAudio, List.mem_cons] at hx
      rcases hx with rfl | hx
      · exact le_max_left _ _
      · have h1 : nf ≤ max nf clock + d := by
          have := le_max_left nf clock
          linarith
        exact le_trans h1
          (ih _ (fun b hb => hd b (List.mem_cons_of_mem _ hb)) x hx)

theorem computeStarts_length (bufs : List (ℚ × ℚ)) :
    ∀ nf, (computeStarts nf bufs).length = bufs.length := by
  induction bufs with
  | nil => intro nf; rfl
  | cons b rest ih =>
      intro nf
      obtain ⟨clock, d⟩ := b
      simp [computeStarts, ih]

theorem computeStarts_mono (bufs : List (ℚ × ℚ)) :
    ∀ nf : ℚ, (∀ b ∈ bufs, 0 ≤ b.2) →
      List.Chain' (· ≤ ·) (computeStarts nf bufs) := by
  induction bufs with
  | nil => intro nf _; simp [computeStarts]
  | cons b rest ih =>
      intro nf hd
      obtain ⟨clock, d⟩ := b
      have hd0 : (0 : ℚ) ≤ d := hd (clock, d) (List.mem_cons_self _ _)
      have hrest : ∀ b ∈ rest, (0 : ℚ) ≤ b.2 :=
        fun b hb => hd b (List.mem_cons_of_mem _ hb)
      simp only [computeStarts, scheduleAudio]
      rw [List.chain'_cons']
      refine ⟨?_, ih _ hrest⟩
      intro y hy
      have hmem : y ∈ computeStarts (max nf clock + d) rest :=
        List.mem_of_mem_head? hy
      have := computeStarts_ge rest _ hrest y hmem
      linarith

theorem computeStarts_chained (bufs : List (ℚ × ℚ)) :
    ∀ nf : ℚ, (∀ b ∈ bufs, 0 ≤ b.2) →
      List.Chain' (fun x y => x.1 + x.2 ≤ y.1)
        ((computeStarts nf bufs).zip (bufs.map Prod.snd)) := by
  induction bufs with
  | nil => intro nf _; simp [computeStarts]
  | cons b rest ih =>
      intro nf hd
      obtain ⟨clock, d⟩ := b
      have hrest : ∀ b ∈ rest, (0 : ℚ) ≤ b.2 :=
        fun b hb => hd b (List.mem_cons_of_mem _ hb)
      simp only [computeStarts, scheduleAudio, List.map_cons, List.zip_cons_cons]
      rw [List.chain'_cons']
      refine ⟨?_, ih _ hrest⟩
      intro y hy
      have hmem : y ∈ (computeStarts (max nf clock + d) rest).zip (rest.map Prod.snd) :=
        List.mem_of_mem_head? hy
      have hfst : y.1 ∈ computeStarts (max nf clock + d) rest :=
        (List.of_mem_zip hmem).1
      have := computeStarts_ge rest _ hrest y.1 hfst
      simpa using this

theorem step_message_audio (s : AppState) (clock d : ℚ) :
    (step s (.message (some (clock, d)) none none false)).startLog
        = s.startLog ++ [((scheduleAudio s.nextStartTime clock d).1, d)]
    ∧ (step s (.message (some (clock, d)) none none false)).nextStartTime
        = (scheduleAudio s.nextStartTime clock d).2 := by
  constructor <;> rfl

theorem runFrom_audio (bufs : List (ℚ × ℚ)) :
    ∀ s : AppState,
      (runFrom s (bufs.map fun b => Event.message (some b) none none false)).startLog
        = s.startLog ++ (computeStarts s.nextStartTime bufs).zip (bufs.map Prod.snd) := by
  induction bufs with
  | nil => intro s; simp [runFrom]
  | cons b rest ih =>
      intro s
      obtain ⟨clock, d⟩ := b
      rw [List.map_cons, runFrom_cons, ih]
      rw [(step_message_audio s clock d).1, (step_message_audio s clock d).2]
      simp [computeStarts, scheduleAudio]

/-! ## Transcript assembler lemmas (claim C3) -/

theorem string_append_empty (t : String) : t ++ "" = t := by
  apply String.ext
  simp [String.append]

theorem step_turnText (s : AppState) (e : Event) (he : turnTextEvent e = true) :
    (step s e).transcriptions = s.transcriptions := by
  cases e with
  | message audio inT outT tc =>
      cases audio with
      | some p => simp [turnTextEvent] at he
      | none =>
          cases tc with
          | true => simp [turnTextEvent] at he
          | false => rfl
  | _ => simp [turnTextEvent] at he

theorem runFrom_turnText (ps : List Event) :
    ∀ s : AppState, (∀ e ∈ ps, turnTextEvent e = true) →
      (runFrom s ps).transcriptions = s.transcriptions := by
  induction ps with
  | nil => intro s _; rfl
  | cons e rest ih =>
      intro s hps
      rw [runFrom_cons, ih _ (fun x hx => hps x (List.mem_cons_of_mem _ hx)),
        step_turnText s e (hps e (List.mem_cons_self _ _))]

theorem turnRecords_length (s : AppState) : (turnRecords s).length ≤ 2 := by
  unfold turnRecords
  split <;> split <;> simp

theorem turnRecords_order (s : AppState) :
    ∀ i j (hi : i < (turnRecords s).length) (hj : j < (turnRecords s).length),
      ((turnRecords s).get ⟨i, hi⟩).type = Role.user →
      ((turnRecords s).get ⟨j, hj⟩).type = Role.model → i < j := by
  unfold turnRecords
  split <;> split <;>
    · intro i j hi hj hu hm
      simp only [List.length_append, List.length_cons, List.length_nil,
        List.length] at hi hj
      first
        | omega
        | (interval_cases i <;> interval_cases j <;> simp_all)

theorem turnRecords_user_empty (s : AppState)
    (h : s.currentInputTrans.trim = "") :
    ∀ r ∈ turnRecords s, r.type ≠ Role.user := by
  unfold turnRecords
  rw [h]
  simp only [ne_eq, not_true_eq_false, if_false]
  split <;> simp

theorem turnRecords_model_empty (s : AppState)
    (h : s.currentOutputTrans.trim = "") :
    ∀ r ∈ turnRecords s, r.type ≠ Role.model := by
  unfold turnRecords
  rw [h]
  simp only [ne_eq, not_true_eq_false, if_false]
  split <;> simp

theorem step_turnComplete (s : AppState) :
    (step s (.message none none none true)).transcriptions
        = s.transcriptions ++ turnRecords s
    ∧ (step s (.message none none none true)).currentInputTrans = ""
    ∧ (step s (.message none none none true)).currentOutputTrans = "" := by
  refine ⟨?_, rfl, rfl⟩
  show s.transcriptions ++ turnRecords
      { s with currentInputTrans := s.currentInputTrans ++ "",
               currentOutputTrans := s.currentOutputTrans ++ "" }
      = s.transcriptions ++ turnRecords s
  rw [string_append_empty, string_append_empty]

/-! ## Status-flag invariant (claim C2) -/

theorem step_not_active_connecting (s : AppState) (e : Event)
    (h : (s.status.isActive && s.status.isConnecting) = false) :
    ((step s e).status.isActive && (step s e).status.isConnecting) = false := by
  cases e <;>
    simp only [step, startConnect, applyOpen, applyMessage, cleanupAudio] <;>
    (repeat' split) <;>
    simp_all

/-- C2 (amended): for every reachable status of the controller the `active`
and `connecting` flags never hold simultaneously (so with `idle` read as
"neither active nor connecting", exactly one of `idle`, `connecting`,
`active` holds); the `reconnecting` flag is not exclusive with them — during
a background rotation it holds together with `active`. -/
theorem claim2_active_connecting_exclusive (es : List Event) :
    ((runTrace es).status.isActive && (runTrace es).status.isConnecting) = false :=
  runFrom_pres step_not_active_connecting es initialState rfl

/-- C2 counterexample: after start, a confirmed open and the rotation timer
firing, the reachable status has both the `active` and the `reconnecting`
flag set, so two of the four translation states hold simultaneously and the
claimed exact-one-of-four enumeration fails. -/
theorem claim2_counterexample :
    ¬ exactlyOneOfFour
      (runTrace [.userStart, .openConfirmed ⟨0, false⟩, .timerFire]).status := by
  unfold exactlyOneOfFour
  decide

/-- C3: for every sequence of inbound partial-text events followed by one
turn-completion event, the assembler emits at most two transcript records
for the turn (none from the partial events themselves), every user-side
record strictly before every model-side record, omitting any side whose
trimmed accumulated text is empty, and both turn buffers are reset to empty
afterwards regardless of the emission outcome. -/
theorem claim3_turn_assembly (s : AppState) (ps : List Event)
    (hps : ∀ e ∈ ps, turnTextEvent e = true) :
    (runFrom s ps).transcriptions = s.transcriptions
    ∧ (step (runFrom s ps) (.message none none none true)).transcriptions
        = (runFrom s ps).transcriptions ++ turnRecords (runFrom s ps)
    ∧ (turnRecords (runFrom s ps)).length ≤ 2
    ∧ (∀ i j (hi : i < (turnRecords (runFrom s ps)).length)
          (hj : j < (turnRecords (runFrom s ps)).length),
        ((turnRecords (runFrom s ps)).get ⟨i, hi⟩).type = Role.user →
        ((turnRecords (runFrom s ps)).get ⟨j, hj⟩).type = Role.model → i < j)
    ∧ ((runFrom s ps).currentInputTrans.trim = "" →
        ∀ r ∈ turnRecords (runFrom s ps), r.type ≠ Role.user)
    ∧ ((runFrom s ps).currentOutputTrans.trim = "" →
        ∀ r ∈ turnRecords (runFrom s ps), r.type ≠ Role.model)
    ∧ (step (runFrom s ps) (.message none none none true)).currentInputTrans = ""
    ∧ (step (runFrom s ps) (.message none none none true)).currentOutputTrans = "" :=
  ⟨runFrom_turnText ps s hps, (step_turnComplete _).1, turnRecords_length _,
   turnRecords_order _, turnRecords_user_empty _, turnRecords_model_empty _,
   (step_turnComplete _).2.1, (step_turnComplete _).2.2⟩

theorem claim3_witness :
    (∀ e ∈ [Event.message none (some "hi ") none false,
            Event.message none none (some " there") false],
        turnTextEvent e = true)
    ∧ ((runFrom initialState
          [Event.message none (some "hi ") none false,
           Event.message none none (some " there") false]).transcriptions
          = initialState.transcriptions
      ∧ (step (runFrom initialState
            [Event.message none (some "hi ") none false,
             Event.message none none (some " there") false])
            (.message none none none true)).transcriptions
          = (runFrom initialState
              [Event.message none (some "hi ") none false,
               Event.message none none (some " there") false]).transcriptions
            ++ turnRecords (runFrom initialState
              [Event.message none (some "hi ") none false,
               Event.message none none (some " there") false])
      ∧ (turnRecords (runFrom initialState
          [Event.message none (some "hi ") none false,
           Event.message none none (some " there") false])).length ≤ 2
      ∧ (∀ i j (hi : i < (turnRecords (runFrom initialState
              [Event.message none (some "hi ") none false,
               Event.message none none (some " there") false])).length)
            (hj : j < (turnRecords (runFrom initialState
              [Event.message none (some "hi ") none false,
               Event.message none none (some " there") false])).length),
          ((turnRecords (runFrom initialState
              [Event.message none (some "hi ") none false,
               Event.message none none (some " there") false])).get ⟨i, hi⟩).type
              = Role.user →
          ((turnRecords (runFrom initialState
              [Event.message none (some "hi ") none false,
               Event.message none none (some " there") false])).get ⟨j, hj⟩).type
              = Role.model → i < j)
      ∧ ((runFrom initialState
            [Event.message none (some "hi ") none false,
             Event.message none none (some " there") false]).currentInputTrans.trim
            = "" →
          ∀ r ∈ turnRecords (runFrom initialState
            [Event.message none (some "hi ") none false,
             Event.message none none (some " there") false]), r.type ≠ Role.user)
      ∧ ((runFrom initialState
            [Event.message none (some "hi ") none false,
             Event.message none none (some " there") false]).currentOutputTrans.trim
            = "" →
          ∀ r ∈ turnRecords (runFrom initialState
            [Event.message none (some "hi ") none false,
             Event.message none none (some " there") false]), r.type ≠ Role.model)
      ∧ (step (runFrom initialState
            [Event.message none (some "hi ") none false,
             Event.message none none (some " there") false])
            (.message none none none true)).currentInputTrans = ""
      ∧ (step (runFrom initialState
            [Event.message none (some "hi ") none false,
             Event.message none none (some " there") false])
            (.message none none none true)).currentOutputTrans = "") :=
  ⟨by decide, claim3_turn_assembly initialState _ (by decide)⟩

/-- C4: for any sequence of decoded audio buffers with non-negative
durations arriving in order at arbitrary output-clock times, the scheduler
assigns each buffer the start timestamp `max(nextFree, clock)` and advances
`nextFree` by the duration, so the recorded start timestamps are
non-decreasing and each buffer starts no earlier than the previous buffer's
start plus the previous buffer's duration (no overlap). -/
theorem claim4_scheduler_no_overlap (s : AppState) (bufs : List (ℚ × ℚ))
    (hd : ∀ b ∈ bufs, 0 ≤ b.2) :
    (runFrom s (bufs.map fun b => Event.message (some b) none none false)).startLog
        = s.startLog ++ (computeStarts s.nextStartTime bufs).zip (bufs.map Prod.snd)
    ∧ List.Chain' (· ≤ ·) (computeStarts s.nextStartTime bufs)
    ∧ List.Chain' (fun x y => x.1 + x.2 ≤ y.1)
        ((computeStarts s.nextStartTime bufs).zip (bufs.map Prod.snd)) :=
  ⟨runFrom_audio bufs s, computeStarts_mono bufs _ hd,
   computeStarts_chained bufs _ hd⟩

theorem claim4_witness :
    (∀ b ∈ [((0 : ℚ), (2 : ℚ)), ((1 : ℚ), (3 : ℚ)), ((5 : ℚ), (0 : ℚ))],
        (0 : ℚ) ≤ b.2)
    ∧ ((runFrom initialState
          (([((0 : ℚ), (2 : ℚ)), ((1 : ℚ), (3 : ℚ)), ((5 : ℚ), (0 : ℚ))]).map
            fun b => Event.message (some b) none none false)).startLog
        = initialState.startLog
          ++ (computeStarts initialState.nextStartTime
                [((0 : ℚ), (2 : ℚ)), ((1 : ℚ), (3 : ℚ)), ((5 : ℚ), (0 : ℚ))]).zip
              (([((0 : ℚ), (2 : ℚ)), ((1 : ℚ), (3 : ℚ)), ((5 : ℚ), (0 : ℚ))]).map
                Prod.snd)
      ∧ List.Chain' (· ≤ ·)
          (computeStarts initialState.nextStartTime
            [((0 : ℚ), (2 : ℚ)), ((1 : ℚ), (3 : ℚ)), ((5 : ℚ), (0 : ℚ))])
      ∧ List.Chain' (fun x y => x.1 + x.2 ≤ y.1)
          ((computeStarts initialState.nextStartTime
              [((0 : ℚ), (2 : ℚ)), ((1 : ℚ), (3 : ℚ)), ((5 : ℚ), (0 : ℚ))]).zip
            (([((0 : ℚ), (2 : ℚ)), ((1 : ℚ), (3 : ℚ)), ((5 : ℚ), (0 : ℚ))]).map
              Prod.snd))) :=
  ⟨by decide, claim4_scheduler_no_overlap initialState _ (by decide)⟩

/-- C6 (code bug, evaluated at the failing input): when `stop()` is called
while a rotation is mid-flight and the replacement handle's open confirms
afterwards, the code reinstalls the replacement as the session, re-enters
the active state and re-arms the rotation timer instead of aborting the
pending open and remaining idle; only the no-further-send part of the claim
holds (the stop flag stays set and the emission log stays empty). -/
theorem claim6_stop_midrotation_eval :
    (runTrace stopMidRotationTrace).status.isActive = true
    ∧ (runTrace stopMidRotationTrace).sessionRef = some 1
    ∧ (runTrace stopMidRotationTrace).openHandles = [1]
    ∧ (runTrace stopMidRotationTrace).rotationTimer = some SESSION_MAX_DURATION
    ∧ (runTrace stopMidRotationTrace).isUserInitiatedStop = true
    ∧ (runTrace stopMidRotationTrace).sent = [] := by
  decide

/-- C7 (code bug, evaluated at the failing input): after a successful
rotation deliberately closes the retiring handle 0, the transport's
`onclose` for handle 0 finds the stop flag unset and the `reconnecting`
flag already cleared, so the code starts a recovery rotation (sets
`reconnecting` and issues a fresh open attempt) even though the closure was
deliberate; before that `onclose` no attempt was pending. -/
theorem claim7_retiring_close_eval :
    (runTrace (retiringCloseTrace.take 4)).status.isReconnecting = false
    ∧ (runTrace (retiringCloseTrace.take 4)).pending = []
    ∧ (runTrace (retiringCloseTrace.take 4)).closedHandles = [0]
    ∧ (runTrace retiringCloseTrace).isUserInitiatedStop = false
    ∧ (runTrace retiringCloseTrace).status.isReconnecting = true
    ∧ (runTrace retiringCloseTrace).pending = [⟨2, true⟩] := by
  decide

/-- C8: a failure of the initial connect attempt puts the controller into an
idle status carrying the surfaced error and schedules no automatic retry,
while a failure of a background rotation attempt leaves the session slot,
the open handle and the user-visible active flag untouched and arms a retry
timeout with the fixed 5-second backoff; when that timeout fires it starts a
new rotation attempt only if the user has not stopped. -/
theorem claim8_connect_failure (s : AppState) (a : Attempt) (msg : String)
    (ha : a ∈ s.pending) :
    (a.isRotation = false →
        (step s (.connectFailed a msg)).status = ⟨false, false, false, some msg⟩
        ∧ (step s (.connectFailed a msg)).retryTimers = s.retryTimers
        ∧ (step s (.connectFailed a msg)).pending = s.pending.erase a)
    ∧ (a.isRotation = true →
        (step s (.connectFailed a msg)).sessionRef = s.sessionRef
        ∧ (step s (.connectFailed a msg)).openHandles = s.openHandles
        ∧ (step s (.connectFailed a msg)).status.isActive = s.status.isActive
        ∧ (step s (.connectFailed a msg)).status.error = s.status.error
        ∧ (step s (.connectFailed a msg)).scriptProcessor = s.scriptProcessor
        ∧ (step s (.connectFailed a msg)).sent = s.sent
        ∧ (step s (.connectFailed a msg)).retryTimers
            = s.retryTimers ++ [ROTATION_RETRY_DELAY])
    ∧ (s.isUserInitiatedStop = true →
        (step s .retryFire).pending = s.pending
        ∧ (step s .retryFire).sent = s.sent)
    ∧ (∀ rest, s.isUserInitiatedStop = false →
        s.retryTimers = ROTATION_RETRY_DELAY :: rest →
        (step s .retryFire).pending = s.pending ++ [⟨s.nextHandleId, true⟩]
        ∧ (step s .retryFire).sessionRef = s.sessionRef) := by
  refine ⟨fun hrot => ?_, fun hrot => ?_, fun hflag => ?_, fun rest hflag hrt => ?_⟩
  · simp [step, ha, hrot]
  · simp [step, ha, hrot]
  · cases hrt : s.retryTimers <;> simp [step, hrt, hflag]
  · simp [step, hrt, hflag, startConnect]

theorem claim8_witness :
    ((⟨0, false⟩ : Attempt) ∈ (runTrace [.userStart]).pending)
    ∧ (((⟨0, false⟩ : Attempt).isRotation = false →
          (step (runTrace [.userStart]) (.connectFailed ⟨0, false⟩ "boom")).status
              = ⟨false, false, false, some "boom"⟩
          ∧ (step (runTrace [.userStart]) (.connectFailed ⟨0, false⟩ "boom")).retryTimers
              = (runTrace [.userStart]).retryTimers
          ∧ (step (runTrace [.userStart]) (.connectFailed ⟨0, false⟩ "boom")).pending
              = (runTrace [.userStart]).pending.erase ⟨0, false⟩)
      ∧ ((⟨0, false⟩ : Attempt).isRotation = true →
          (step (runTrace [.userStart]) (.connectFailed ⟨0, false⟩ "boom")).sessionRef
              = (runTrace [.userStart]).sessionRef
          ∧ (step (runTrace [.userStart]) (.connectFailed ⟨0, false⟩ "boom")).openHandles
              = (runTrace [.userStart]).openHandles
          ∧ (step (runTrace [.userStart]) (.connectFailed ⟨0, false⟩ "boom")).status.isActive
              = (runTrace [.userStart]).status.isActive
          ∧ (step (runTrace [.userStart]) (.connectFailed ⟨0, false⟩ "boom")).status.error
              = (runTrace [.userStart]).status.error
          ∧ (step (runTrace [.userStart]) (.connectFailed ⟨0, false⟩ "boom")).scriptProcessor
              = (runTrace [.userStart]).scriptProcessor
          ∧ (step (runTrace [.userStart]) (.connectFailed ⟨0, false⟩ "boom")).sent
              = (runTrace [.userStart]).sent
          ∧ (step (runTrace [.userStart]) (.connectFailed ⟨0, false⟩ "boom")).retryTimers
              = (runTrace [.userStart]).retryTimers ++ [ROTATION_RETRY_DELAY])
      ∧ ((runTrace [.userStart]).isUserInitiatedStop = true →
          (step (runTrace [.userStart]) .retryFire).pending
              = (runTrace [.userStart]).pending
          ∧ (step (runTrace [.userStart]) .retryFire).sent
              = (runTrace [.userStart]).sent)
      ∧ (∀ rest, (runTrace [.userStart]).isUserInitiatedStop = false →
          (runTrace [.userStart]).retryTimers = ROTATION_RETRY_DELAY :: rest →
          (step (runTrace [.userStart]) .retryFire).pending
              = (runTrace [.userStart]).pending
                ++ [⟨(runTrace [.userStart]).nextHandleId, true⟩]
          ∧ (step (runTrace [.userStart]) .retryFire).sessionRef
              = (runTrace [.userStart]).sessionRef)) :=
  ⟨by decide, claim8_connect_failure (runTrace [.userStart]) ⟨0, false⟩ "boom" (by decide)⟩

/-- C10: stopping never touches the transcript record log: `stopTranslation`
resets the status record, the session age and any surfaced error but leaves
`transcriptions` unchanged; a later start also leaves the log unchanged, and
no event ever removes records — every step only appends to the log, so a new
conversation's records are appended to the existing log. -/
theorem claim10_stop_frame (s : AppState) (e : Event) :
    (step s .userStop).transcriptions = s.transcriptions
    ∧ (step s .userStop).status = ⟨false, false, false, none⟩
    ∧ (step s .userStop).sessionAge = 0
    ∧ (step s .userStart).transcriptions = s.transcriptions
    ∧ ∃ new, (step s e).transcriptions = s.transcriptions ++ new := by
  refine ⟨?_, ?_, ?_, ?_, ?_⟩
  · simp only [step, cleanupAudio]
    (repeat' split) <;> rfl
  · simp only [step]
  · simp only [step]
  · simp only [step]
    split <;> rfl
  · cases e with
    | message audio inT outT tc =>
        cases audio with
        | none =>
            cases tc with
            | false => exact ⟨[], by simp [step, applyMessage]⟩
            | true => exact ⟨_, rfl⟩
        | some p =>
            obtain ⟨clock, d⟩ := p
            cases tc with
            | false => exact ⟨[], by simp [step, applyMessage]⟩
            | true => exact ⟨_, rfl⟩
    | _ =>
        exact ⟨[], by
          simp only [step, startConnect, applyOpen, cleanupAudio]
          (repeat' split) <;> simp_all⟩

/-! ## Preservation of the structural invariant -/

theorem attempt_id_inj {l : List Attempt} (hnd : (l.map Attempt.id).Nodup)
    {a b : Attempt} (ha : a ∈ l) (hb : b ∈ l) (hid : a.id = b.id) : a = b := by
  induction l with
  | nil => simp at ha
  | cons c t ih =>
      rw [List.map_cons, List.nodup_cons] at hnd
      rcases List.mem_cons.1 ha with rfl | ha2 <;>
        rcases List.mem_cons.1 hb with rfl | hb2
      · rfl
      · exact absurd (hid ▸ List.mem_map_of_mem Attempt.id hb2) hnd.1
      · exact absurd (hid ▸ List.mem_map_of_mem Attempt.id ha2) hnd.1
      · exact ih hnd.2 ha2 hb2

theorem inv_of_eq_fields {s t : AppState} (hs : Inv s)
    (hp : t.pending = s.pending) (ho : t.openHandles = s.openHandles)
    (hc : t.closedHandles = s.closedHandles) (hr : t.sessionRef = s.sessionRef)
    (hn : t.nextHandleId = s.nextHandleId) : Inv t := by
  constructor
  · rw [hp, hn]; exact hs.pendFresh
  · rw [hp]; exact hs.pendNodup
  · rw [ho, hn]; exact hs.openFresh
  · rw [hc, hn]; exact hs.closedFresh
  · rw [hr, hn]; exact hs.slotFresh
  · rw [hc]; exact hs.closedNodup
  · rw [hr, hc]; exact hs.slotNotClosed
  · rw [hp, hc]; exact hs.pendNotClosed
  · rw [hp, ho]; exact hs.pendNotOpen
  · rw [hp, hr]; exact hs.pendNotSlot
  · rw [ho]; exact hs.openNodup
  · rw [ho, hr]; exact hs.openSlot

theorem inv_of_pend_erase {s t : AppState} (a : Attempt) (hs : Inv s)
    (hp : t.pending = s.pending.erase a) (ho : t.openHandles = s.openHandles)
    (hc : t.closedHandles = s.closedHandles) (hr : t.sessionRef = s.sessionRef)
    (hn : t.nextHandleId = s.nextHandleId) : Inv t := by
  constructor
  · rw [hp, hn]
    exact fun x hx => hs.pendFresh x (List.mem_of_mem_erase hx)
  · rw [hp]
    exact hs.pendNodup.sublist (List.Sublist.map _ (List.erase_sublist a s.pending))
  · rw [ho, hn]; exact hs.openFresh
  · rw [hc, hn]; exact hs.closedFresh
  · rw [hr, hn]; exact hs.slotFresh
  · rw [hc]; exact hs.closedNodup
  · rw [hr, hc]; exact hs.slotNotClosed
  · rw [hp, hc]
    exact fun x hx => hs.pendNotClosed x (List.mem_of_mem_erase hx)
  · rw [hp, ho]
    exact fun x hx => hs.pendNotOpen x (List.mem_of_mem_erase hx)
  · rw [hp, hr]
    exact fun x hx => hs.pendNotSlot x (List.mem_of_mem_erase hx)
  · rw [ho]; exact hs.openNodup
  · rw [ho, hr]; exact hs.openSlot

theorem inv_of_open_erase {s t : AppState} (h : Nat) (hs : Inv s)
    (hp : t.pending = s.pending) (ho : t.openHandles = s.openHandles.erase h)
    (hc : t.closedHandles = s.closedHandles) (hr : t.sessionRef = s.sessionRef)
    (hn : t.nextHandleId = s.nextHandleId) : Inv t := by
  constructor
  · rw [hp, hn]; exact hs.pendFresh
  · rw [hp]; exact hs.pendNodup
  · rw [ho, hn]
    exact fun x hx => hs.openFresh x (List.mem_of_mem_erase hx)
  · rw [hc, hn]; exact hs.closedFresh
  · rw [hr, hn]; exact hs.slotFresh
  · rw [hc]; exact hs.closedNodup
  · rw [hr, hc]; exact hs.slotNotClosed
  · rw [hp, hc]; exact hs.pendNotClosed
  · rw [hp, ho]
    exact fun x hx hmem => hs.pendNotOpen x hx (List.mem_of_mem_erase hmem)
  · rw [hp, hr]; exact hs.pendNotSlot
  · rw [ho]; exact hs.openNodup.erase h
  · rw [ho, hr]
    exact fun x hx => hs.openSlot x (List.mem_of_mem_erase hx)

theorem inv_startConnect (b : Bool) (s : AppState) (hs : Inv s) :
    Inv (startConnect b s) := by
  have hp : (startConnect b s).pending = s.pending ++ [⟨s.nextHandleId, b⟩] := by
    cases b <;> rfl
  have hn : (startConnect b s).nextHandleId = s.nextHandleId + 1 := by
    cases b <;> rfl
  have ho : (startConnect b s).openHandles = s.openHandles := by cases b <;> rfl
  have hc : (startConnect b s).closedHandles = s.closedHandles := by cases b <;> rfl
  have hr : (startConnect b s).sessionRef = s.sessionRef := by cases b <;> rfl
  constructor
  · rw [hp, hn]
    intro a ha
    rcases List.mem_append.1 ha with h1 | h1
    · exact Nat.lt_succ_of_lt (hs.pendFresh a h1)
    · rcases List.mem_singleton.1 h1 with rfl
      exact Nat.lt_succ_self _
  · rw [hp, List.map_append]
    refine List.nodup_append.2 ⟨hs.pendNodup, by simp, ?_⟩
    intro x hx hx2
    simp only [List.map_cons, List.map_nil, List.mem_singleton] at hx2
    subst hx2
    rcases List.mem_map.1 hx with ⟨a, ha, hid⟩
    exact absurd (hid ▸ hs.pendFresh a ha) (lt_irrefl _)
  · rw [ho, hn]
    exact fun x hx => Nat.lt_succ_of_lt (hs.openFresh x hx)
  · rw [hc, hn]
    exact fun x hx => Nat.lt_succ_of_lt (hs.closedFresh x hx)
  · rw [hr, hn]
    exact fun x hx => Nat.lt_succ_of_lt (hs.slotFresh x hx)
  · rw [hc]; exact hs.closedNodup
  · rw [hr, hc]; exact hs.slotNotClosed
  · rw [hp, hc]
    intro a ha
    rcases List.mem_append.1 ha with h1 | h1
    · exact hs.pendNotClosed a h1
    · rcases List.mem_singleton.1 h1 with rfl
      intro hmem
      exact absurd (hs.closedFresh _ hmem) (lt_irrefl _)
  · rw [hp, ho]
    intro a ha
    rcases List.mem_append.1 ha with h1 | h1
    · exact hs.pendNotOpen a h1
    · rcases List.mem_singleton.1 h1 with rfl
      intro hmem
      exact absurd (hs.openFresh _ hmem) (lt_irrefl _)
  · rw [hp, hr]
    intro a ha
    rcases List.mem_append.1 ha with h1 | h1
    · exact hs.pendNotSlot a h1
    · rcases List.mem_singleton.1 h1 with rfl
      intro hmem
      exact absurd (hs.slotFresh _ hmem) (lt_irrefl _)
  · rw [ho]; exact hs.openNodup
  · rw [ho, hr]; exact hs.openSlot

theorem inv_userStop (s : AppState) (hs : Inv s) : Inv (step s .userStop) := by
  cases hsr : s.sessionRef with
  | none =>
      refine inv_of_eq_fields hs ?_ ?_ ?_ ?_ ?_ <;>
        simp [step, cleanupAudio, hsr]
  | some h0 =>
      have hp : (step s .userStop).pending = s.pending := by
        simp [step, cleanupAudio, hsr]
      have hn : (step s .userStop).nextHandleId = s.nextHandleId := by
        simp [step, cleanupAudio, hsr]
      have ho : (step s .userStop).openHandles = s.openHandles.erase h0 := by
        simp [step, cleanupAudio, hsr]
      have hc : (step s .userStop).closedHandles = s.closedHandles ++ [h0] := by
        simp [step, cleanupAudio, hsr]
      have hr : (step s .userStop).sessionRef = none := by
        simp [step, cleanupAudio, hsr]
      constructor
      · rw [hp, hn]; exact hs.pendFresh
      · rw [hp]; exact hs.pendNodup
      · rw [ho, hn]
        exact fun x hx => hs.openFresh x (List.mem_of_mem_erase hx)
      · rw [hc, hn]
        intro x hx
        rcases List.mem_append.1 hx with h1 | h1
        · exact hs.closedFresh x h1
        · rcases List.mem_singleton.1 h1 with rfl
          exact hs.slotFresh _ hsr
      · rw [hr]; intro x hx; cases hx
      · rw [hc]
        refine List.nodup_append.2 ⟨hs.closedNodup, List.nodup_singleton _, ?_⟩
        intro x hx hx2
        rcases List.mem_singleton.1 hx2 with rfl
        exact hs.slotNotClosed _ hsr hx
      · rw [hr]; intro x hx; cases hx
      · rw [hp, hc]
        intro a ha hmem
        rcases List.mem_append.1 hmem with h1 | h1
        · exact hs.pendNotClosed a ha h1
        · have h2 := List.mem_singleton.1 h1
          exact hs.pendNotSlot a ha (by rw [hsr, h2])
      · rw [hp, ho]
        exact fun a ha hmem => hs.pendNotOpen a ha (List.mem_of_mem_erase hmem)
      · rw [hp, hr]
        intro a _ hcontra
        cases hcontra
      · rw [ho]; exact hs.openNodup.erase _
      · rw [ho, hr]
        intro x hx
        have hxo := List.mem_of_mem_erase hx
        have hsx := hs.openSlot x hxo
        rw [hsr] at hsx
        injection hsx with hsx2
        subst hsx2
        exact absurd hx (by
          intro hmem
          exact ((hs.openNodup.mem_erase_iff).1 hmem).1 rfl)

theorem inv_applyOpen (a : Attempt) (s : AppState) (ha : a ∈ s.pending)
    (hs : Inv s) : Inv (applyOpen a s) := by
  have hid_ne : ∀ a' ∈ s.pending.erase a, a'.id ≠ a.id := by
    intro a' ha' heq
    have hmem : a' ∈ s.pending := List.mem_of_mem_erase ha'
    have heqa : a' = a := attempt_id_inj hs.pendNodup hmem ha heq
    subst heqa
    exact (((hs.pendNodup.of_map).mem_erase_iff).1 ha').1 rfl
  cases hsr : s.sessionRef with
  | none =>
      have hp : (applyOpen a s).pending = s.pending.erase a := by
        simp [applyOpen, hsr]
      have ho : (applyOpen a s).openHandles = a.id :: s.openHandles := by
        simp [applyOpen, hsr]
      have hc : (applyOpen a s).closedHandles = s.closedHandles := by
        simp [applyOpen, hsr]
      have hr : (applyOpen a s).sessionRef = some a.id := by
        simp [applyOpen, hsr]
      have hn : (applyOpen a s).nextHandleId = s.nextHandleId := by
        simp [applyOpen, hsr]
      constructor
      · rw [hp, hn]
        exact fun x hx => hs.pendFresh x (List.mem_of_mem_erase hx)
      · rw [hp]
        exact hs.pendNodup.sublist (List.Sublist.map _ (List.erase_sublist a s.pending))
      · rw [ho, hn]
        intro x hx
        rcases List.mem_cons.1 hx with rfl | hx2
        · exact hs.pendFresh a ha
        · exact hs.openFresh x hx2
      · rw [hc, hn]; exact hs.closedFresh
      · rw [hr, hn]
        intro x hx
        cases hx
        exact hs.pendFresh a ha
      · rw [hc]; exact hs.closedNodup
      · rw [hr, hc]
        intro x hx
        cases hx
        exact hs.pendNotClosed a ha
      · rw [hp, hc]
        exact fun x hx => hs.pendNotClosed x (List.mem_of_mem_erase hx)
      · rw [hp, ho]
        intro x hx hmem
        rcases List.mem_cons.1 hmem with h1 | h1
        · exact hid_ne x hx h1
        · exact hs.pendNotOpen x (List.mem_of_mem_erase hx) h1
      · rw [hp, hr]
        intro x hx heq
        injection heq with h2
        exact hid_ne x hx h2.symm
      · rw [ho]
        exact List.nodup_cons.2 ⟨hs.pendNotOpen a ha, hs.openNodup⟩
      · rw [ho, hr]
        intro x hx
        rcases List.mem_cons.1 hx with rfl | hx2
        · rfl
        · have hsl := hs.openSlot x hx2
          rw [hsr] at hsl
          cases hsl
  | some o =>
      by_cases hoa : o = a.id
      · subst hoa
        exact absurd hsr (hs.pendNotSlot a ha)
      · have hnodup : (a.id :: s.openHandles).Nodup :=
          List.nodup_cons.2 ⟨hs.pendNotOpen a ha, hs.openNodup⟩
        have hp : (applyOpen a s).pending = s.pending.erase a := by
          simp [applyOpen, hsr, hoa]
        have ho : (applyOpen a s).openHandles = (a.id :: s.openHandles).erase o := by
          simp [applyOpen, hsr, hoa]
        have hc : (applyOpen a s).closedHandles = s.closedHandles ++ [o] := by
          simp [applyOpen, hsr, hoa]
        have hr : (applyOpen a s).sessionRef = some a.id := by
          simp [applyOpen, hsr, hoa]
        have hn : (applyOpen a s).nextHandleId = s.nextHandleId := by
          simp [applyOpen, hsr, hoa]
        constructor
        · rw [hp, hn]
          exact fun x hx => hs.pendFresh x (List.mem_of_mem_erase hx)
        · rw [hp]
          exact hs.pendNodup.sublist (List.Sublist.map _ (List.erase_sublist a s.pending))
        · rw [ho, hn]
          intro x hx
          rcases List.mem_cons.1 (List.mem_of_mem_erase hx) with rfl | hx2
          · exact hs.pendFresh a ha
          · exact hs.openFresh x hx2
        · rw [hc, hn]
          intro x hx
          rcases List.mem_append.1 hx with h1 | h1
          · exact hs.closedFresh x h1
          · rcases List.mem_singleton.1 h1 with rfl
            exact hs.slotFresh _ hsr
        · rw [hr, hn]
          intro x hx
          cases hx
          exact hs.pendFresh a ha
        · rw [hc]
          refine List.nodup_append.2 ⟨hs.closedNodup, List.nodup_singleton _, ?_⟩
          intro x hx hx2
          rcases List.mem_singleton.1 hx2 with rfl
          exact hs.slotNotClosed _ hsr hx
        · rw [hr, hc]
          intro x hx
          cases hx
          intro hmem
          rcases List.mem_append.1 hmem with h1 | h1
          · exact hs.pendNotClosed a ha h1
          · rcases List.mem_singleton.1 h1 with h2
            exact hoa h2.symm
        · rw [hp, hc]
          intro x hx hmem
          rcases List.mem_append.1 hmem with h1 | h1
          · exact hs.pendNotClosed x (List.mem_of_mem_erase hx) h1
          · rcases List.mem_singleton.1 h1 with h2
            exact hs.pendNotSlot x (List.mem_of_mem_erase hx) (by rw [hsr, h2])
        · rw [hp, ho]
          intro x hx hmem
          rcases List.mem_cons.1 (List.mem_of_mem_erase hmem) with h1 | h1
          · exact hid_ne x hx h1
          · exact hs.pendNotOpen x (List.mem_of_mem_erase hx) h1
        · rw [hp, hr]
          intro x hx heq
          injection heq with h2
          exact hid_ne x hx h2.symm
        · rw [ho]
          exact hnodup.erase o
        · rw [ho, hr]
          intro x hx
          rcases List.mem_cons.1 (List.mem_of_mem_erase hx) with rfl | hx2
          · rfl
          · have hsl := hs.openSlot x hx2
            rw [hsr] at hsl
            injection hsl with h2
            subst h2
            exact absurd ((hnodup.mem_erase_iff).1 hx).1 (by simp)

theorem inv_step (s : AppState) (e : Event) (hs : Inv s) : Inv (step s e) := by
  cases e with
  | userStart =>
      simp only [step]
      split
      · exact hs
      · exact inv_startConnect false s hs
  | userStop => exact inv_userStop s hs
  | timerFire =>
      rcases hrt : s.rotationTimer with _ | d
      · simp only [step, hrt]
        exact hs
      · simp only [step, hrt]
        split
        · exact inv_of_eq_fields hs rfl rfl rfl rfl rfl
        · exact inv_startConnect true _ (inv_of_eq_fields hs rfl rfl rfl rfl rfl)
  | retryFire =>
      rcases hrt : s.retryTimers with _ | ⟨d, rest⟩
      · simp only [step, hrt]
        exact hs
      · simp only [step, hrt]
        split
        · exact inv_of_eq_fields hs rfl rfl rfl rfl rfl
        · exact inv_startConnect true _ (inv_of_eq_fields hs rfl rfl rfl rfl rfl)
  | connectFailed a msg =>
      simp only [step]
      split
      · split
        · exact inv_of_pend_erase a hs rfl rfl rfl rfl rfl
        · exact inv_of_pend_erase a hs rfl rfl rfl rfl rfl
      · exact hs
  | openConfirmed a =>
      simp only [step]
      split
      · exact inv_applyOpen a s (by assumption) hs
      · exact hs
  | handleClosed h =>
      simp only [step]
      split
      · split
        · exact inv_startConnect true _ (inv_of_open_erase h hs rfl rfl rfl rfl rfl)
        · exact inv_of_open_erase h hs rfl rfl rfl rfl rfl
      · exact hs
  | sessionError b =>
      simp only [step]
      split
      · exact inv_of_eq_fields hs rfl rfl rfl rfl rfl
      · exact hs
  | audioChunk =>
      refine inv_of_eq_fields hs ?_ ?_ ?_ ?_ ?_ <;>
        (simp only [step]; (repeat' split) <;> rfl)
  | ageTick n =>
      refine inv_of_eq_fields hs ?_ ?_ ?_ ?_ ?_ <;>
        (simp only [step]; (repeat' split) <;> rfl)
  | message audio inT outT tc =>
      refine inv_of_eq_fields hs ?_ ?_ ?_ ?_ ?_ <;>
        (simp only [step, applyMessage]; (repeat' split) <;> rfl)
  | bufferEnded =>
      refine inv_of_eq_fields hs ?_ ?_ ?_ ?_ ?_ <;>
        (simp only [step]; (repeat' split) <;> rfl)

theorem inv_initial : Inv initialState := by
  constructor <;> simp [initialState]

theorem inv_runTrace (es : List Event) : Inv (runTrace es) :=
  runFrom_pres (fun s e hs => inv_step s e hs) es initialState inv_initial

theorem erase_all {l : List Nat} {h : Nat} (hnd : l.Nodup)
    (hall : ∀ x ∈ l, x = h) : l.erase h = [] := by
  cases l with
  | nil => rfl
  | cons a t =>
      have ha : a = h := hall a (List.mem_cons_self _ _)
      subst ha
      have ht : t = [] := by
        cases t with
        | nil => rfl
        | cons b t2 =>
            have hb : b = a := hall b (List.mem_cons_of_mem _ (List.mem_cons_self _ _))
            subst hb
            exact absurd (List.mem_cons_self _ _) (List.nodup_cons.1 hnd).1
      subst ht
      simp

theorem step_flag_true (s : AppState) (e : Event)
    (hflag : s.isUserInitiatedStop = true) (hne : e ≠ .userStart) :
    (step s e).isUserInitiatedStop = true ∧ (step s e).sent = s.sent := by
  cases e with
  | userStart => exact absurd rfl hne
  | _ =>
      constructor <;>
        (simp only [step, startConnect, applyOpen, applyMessage, cleanupAudio]
         (repeat' split) <;> simp_all)

theorem runFrom_flag_true (es : List Event) :
    ∀ s : AppState, s.isUserInitiatedStop = true → Event.userStart ∉ es →
      (runFrom s es).isUserInitiatedStop = true ∧ (runFrom s es).sent = s.sent := by
  induction es with
  | nil => intro s hflag _; exact ⟨hflag, rfl⟩
  | cons e rest ih =>
      intro s hflag hmem
      have hne : e ≠ .userStart := by
        intro heq
        exact hmem (heq ▸ List.mem_cons_self _ _)
      have hstep := step_flag_true s e hflag hne
      rw [runFrom_cons]
      have := ih (step s e) hstep.1 (fun hx => hmem (List.mem_cons_of_mem _ hx))
      exact ⟨this.1, this.2.trans hstep.2⟩

/-! ## Session-slot routing lemmas (claims C1 and C5) -/

theorem step_slotNeutral (s : AppState) (e : Event) (he : slotNeutral e = true) :
    (step s e).sessionRef = s.sessionRef := by
  cases e with
  | openConfirmed a => simp [slotNeutral] at he
  | userStop => simp [slotNeutral] at he
  | _ =>
      simp only [step, startConnect, applyMessage, cleanupAudio]
      (repeat' split) <;> rfl

theorem step_sent (s : AppState) (e : Event) :
    (step s e).sent = s.sent
    ∨ (∃ hdl, s.sessionRef = some hdl ∧ s.isUserInitiatedStop = false
        ∧ (step s e).sent = s.sent ++ [(s.chunkCount, hdl)]) := by
  cases e with
  | audioChunk =>
      rcases hsp : s.scriptProcessor with _ | _
      · left
        simp [step, hsp]
      · rcases hsr : s.sessionRef with _ | hdl
        · left
          simp [step, hsp, hsr]
        · rcases hflag : s.isUserInitiatedStop with _ | _
          · right
            exact ⟨hdl, by simp [hsr], by simp [hflag],
              by simp [step, hsp, hsr, hflag]⟩
          · left
            simp [step, hsp, hsr, hflag]
  | _ =>
      left
      simp only [step, startConnect, applyOpen, applyMessage, cleanupAudio]
      (repeat' split) <;> rfl

theorem runFrom_slotNeutral (es : List Event) :
    ∀ s : AppState, (∀ e ∈ es, slotNeutral e = true) →
      (runFrom s es).sessionRef = s.sessionRef
      ∧ ∃ new, (runFrom s es).sent = s.sent ++ new
          ∧ ∀ p ∈ new, s.sessionRef = some p.2 := by
  induction es with
  | nil => intro s _; exact ⟨rfl, [], by simp [runFrom], by simp⟩
  | cons e rest ih =>
      intro s hes
      have he := hes e (List.mem_cons_self _ _)
      have hslot := step_slotNeutral s e he
      obtain ⟨ih1, new, ih2, ih3⟩ :=
        ih (step s e) (fun x hx => hes x (List.mem_cons_of_mem _ hx))
      rw [runFrom_cons]
      refine ⟨ih1.trans hslot, ?_⟩
      rcases step_sent s e with h1 | ⟨hdl, hh1, _, hh3⟩
      · refine ⟨new, by rw [ih2, h1], fun p hp => ?_⟩
        rw [← hslot]
        exact ih3 p hp
      · refine ⟨(s.chunkCount, hdl) :: new, ?_, fun p hp => ?_⟩
        · rw [ih2, hh3]
          simp
        · rcases List.mem_cons.1 hp with rfl | hp2
          · exact hh1
          · rw [← hslot]
            exact ih3 p hp2

theorem step_openConfirmed_swap (s : AppState) (a : Attempt) (o : Nat)
    (hmem : a ∈ s.pending) (ho : s.sessionRef = some o) (hne : o ≠ a.id) :
    (step s (.openConfirmed a)).sessionRef = some a.id
    ∧ (step s (.openConfirmed a)).closedHandles = s.closedHandles ++ [o] := by
  constructor <;> simp [step, hmem, applyOpen, ho, hne]

theorem runFrom_append_eq (tr es : List Event) :
    runFrom (runTrace tr) es = runTrace (tr ++ es) := by
  simp [runTrace, runFrom, List.foldl_append]

/-- C1: the capture callback emits each chunk to at most one handle, the one
in the single session slot; during a rotation window (no confirmed open and
no user stop) the slot is unchanged, so every emission goes to the
pre-rotation handle; the confirmed open of a pending replacement atomically
swaps the slot and closes the old handle, after which all emissions (until
the next slot change) target the new handle; and no handle is ever closed
twice — the close log of every reachable state has no duplicates. -/
theorem claim1_rotation_routing (tr : List Event) (h : Nat) (es : List Event)
    (hslot : (runTrace tr).sessionRef = some h)
    (hes : ∀ e ∈ es, slotNeutral e = true) :
    (runFrom (runTrace tr) es).sessionRef = some h
    ∧ (∃ new, (runFrom (runTrace tr) es).sent = (runTrace tr).sent ++ new
        ∧ ∀ p ∈ new, p.2 = h)
    ∧ (∀ a ∈ (runFrom (runTrace tr) es).pending, a.id ≠ h →
        (step (runFrom (runTrace tr) es) (.openConfirmed a)).sessionRef = some a.id
        ∧ (step (runFrom (runTrace tr) es) (.openConfirmed a)).closedHandles
            = (runFrom (runTrace tr) es).closedHandles ++ [h]
        ∧ (step (runFrom (runTrace tr) es) (.openConfirmed a)).closedHandles.Nodup
        ∧ (∀ es2, (∀ e ∈ es2, slotNeutral e = true) →
            ∃ new2,
              (runFrom (step (runFrom (runTrace tr) es) (.openConfirmed a)) es2).sent
                = (step (runFrom (runTrace tr) es) (.openConfirmed a)).sent ++ new2
              ∧ ∀ p ∈ new2, p.2 = a.id))
    ∧ (runFrom (runTrace tr) es).closedHandles.Nodup
    ∧ (∀ s2 : AppState, (step s2 .audioChunk).sent = s2.sent
        ∨ ∃ hdl, s2.sessionRef = some hdl
            ∧ (step s2 .audioChunk).sent = s2.sent ++ [(s2.chunkCount, hdl)]) := by
  obtain ⟨hw1, new, hw2, hw3⟩ := runFrom_slotNeutral es (runTrace tr) hes
  rw [hslot] at hw3
  have hwslot : (runFrom (runTrace tr) es).sessionRef = some h := by
    rw [hw1, hslot]
  refine ⟨hwslot, ⟨new, hw2, fun p hp => ?_⟩, ?_, ?_, ?_⟩
  · have := hw3 p hp
    injection this with h2
    exact h2.symm
  · intro a hmem hne
    have hswap := step_openConfirmed_swap (runFrom (runTrace tr) es) a h hmem hwslot
      (fun heq => hne heq.symm)
    refine ⟨hswap.1, hswap.2, ?_, ?_⟩
    · have heq : step (runFrom (runTrace tr) es) (.openConfirmed a)
          = runTrace (tr ++ es ++ [.openConfirmed a]) := by
        rw [← runFrom_append_eq, ← runFrom_append_eq]
        rfl
      rw [heq]
      exact (inv_runTrace _).closedNodup
    · intro es2 hes2
      obtain ⟨_, new2, hv2, hv3⟩ :=
        runFrom_slotNeutral es2 (step (runFrom (runTrace tr) es) (.openConfirmed a)) hes2
      refine ⟨new2, hv2, fun p hp => ?_⟩
      have := hv3 p hp
      rw [hswap.1] at this
      injection this with h2
      exact h2.symm
  · have heq : runFrom (runTrace tr) es = runTrace (tr ++ es) := runFrom_append_eq tr es
    rw [heq]
    exact (inv_runTrace _).closedNodup
  · intro s2
    rcases step_sent s2 .audioChunk with h1 | ⟨hdl, hh1, _, hh3⟩
    · exact Or.inl h1
    · exact Or.inr ⟨hdl, hh1, hh3⟩

/-- C5: `stopTranslation` in any reachable state cancels the rotation timer,
closes the slot handle (which by the slot invariant is every handle that is
open), forcibly stops every pending playback buffer, resets the next-free
playback timestamp to zero, resets the status to idle with no error, and
sets the stop flag, which is consulted on every emission — so along any
continuation that contains no new `start()`, no further chunk is ever
emitted. -/
theorem claim5_stop_quiesces (tr es : List Event) (h : Nat)
    (hslot : (runTrace tr).sessionRef = some h)
    (hes : Event.userStart ∉ es) :
    (step (runTrace tr) .userStop).rotationTimer = none
    ∧ (step (runTrace tr) .userStop).sessionRef = none
    ∧ (step (runTrace tr) .userStop).openHandles = []
    ∧ (step (runTrace tr) .userStop).closedHandles
        = (runTrace tr).closedHandles ++ [h]
    ∧ (step (runTrace tr) .userStop).sources = 0
    ∧ (step (runTrace tr) .userStop).nextStartTime = 0
    ∧ (step (runTrace tr) .userStop).scriptProcessor = false
    ∧ (step (runTrace tr) .userStop).status = ⟨false, false, false, none⟩
    ∧ (step (runTrace tr) .userStop).sessionAge = 0
    ∧ (step (runTrace tr) .userStop).isUserInitiatedStop = true
    ∧ (runFrom (step (runTrace tr) .userStop) es).sent
        = (step (runTrace tr) .userStop).sent
    ∧ (runFrom (step (runTrace tr) .userStop) es).isUserInitiatedStop = true := by
  have hinv := inv_runTrace tr
  have hall : ∀ x ∈ (runTrace tr).openHandles, x = h := by
    intro x hx
    have := hinv.openSlot x hx
    rw [hslot] at this
    injection this with h2
    exact h2.symm
  have hopen : (step (runTrace tr) .userStop).openHandles = [] := by
    have herase := erase_all hinv.openNodup hall
    simp [step, cleanupAudio, hslot, herase]
  have hflag : (step (runTrace tr) .userStop).isUserInitiatedStop = true := by
    simp [step, cleanupAudio, hslot]
  have hrest := runFrom_flag_true es (step (runTrace tr) .userStop) hflag hes
  refine ⟨?_, ?_, hopen, ?_, ?_, ?_, ?_, ?_, ?_, hflag, hrest.2, hrest.1⟩ <;>
    simp [step, cleanupAudio, hslot]

theorem claim1_witness :
    ((runTrace rotationWindowTrace).sessionRef = some 0
      ∧ (∀ e ∈ [Event.audioChunk], slotNeutral e = true))
    ∧ ((runFrom (runTrace rotationWindowTrace) [Event.audioChunk]).sessionRef = some 0
      ∧ (∃ new,
          (runFrom (runTrace rotationWindowTrace) [Event.audioChunk]).sent
            = (runTrace rotationWindowTrace).sent ++ new
          ∧ ∀ p ∈ new, p.2 = 0)
      ∧ (∀ a ∈ (runFrom (runTrace rotationWindowTrace) [Event.audioChunk]).pending,
          a.id ≠ 0 →
          (step (runFrom (runTrace rotationWindowTrace) [Event.audioChunk])
              (.openConfirmed a)).sessionRef = some a.id
          ∧ (step (runFrom (runTrace rotationWindowTrace) [Event.audioChunk])
              (.openConfirmed a)).closedHandles
              = (runFrom (runTrace rotationWindowTrace) [Event.audioChunk]).closedHandles
                ++ [0]
          ∧ (step (runFrom (runTrace rotationWindowTrace) [Event.audioChunk])
              (.openConfirmed a)).closedHandles.Nodup
          ∧ (∀ es2, (∀ e ∈ es2, slotNeutral e = true) →
              ∃ new2,
                (runFrom (step (runFrom (runTrace rotationWindowTrace) [Event.audioChunk])
                    (.openConfirmed a)) es2).sent
                  = (step (runFrom (runTrace rotationWindowTrace) [Event.audioChunk])
                      (.openConfirmed a)).sent ++ new2
                ∧ ∀ p ∈ new2, p.2 = a.id))
      ∧ (runFrom (runTrace rotationWindowTrace) [Event.audioChunk]).closedHandles.Nodup
      ∧ (∀ s2 : AppState, (step s2 .audioChunk).sent = s2.sent
          ∨ ∃ hdl, s2.sessionRef = some hdl
              ∧ (step s2 .audioChunk).sent = s2.sent ++ [(s2.chunkCount, hdl)])) :=
  ⟨⟨by decide, by decide⟩,
   claim1_rotation_routing rotationWindowTrace 0 [Event.audioChunk] (by decide) (by decide)⟩

theorem claim5_witness :
    ((runTrace rotationWindowTrace).sessionRef = some 0
      ∧ Event.userStart ∉ [Event.audioChunk, Event.timerFire])
    ∧ ((step (runTrace rotationWindowTrace) .userStop).rotationTimer = none
      ∧ (step (runTrace rotationWindowTrace) .userStop).sessionRef = none
      ∧ (step (runTrace rotationWindowTrace) .userStop).openHandles = []
      ∧ (step (runTrace rotationWindowTrace) .userStop).closedHandles
          = (runTrace rotationWindowTrace).closedHandles ++ [0]
      ∧ (step (runTrace rotationWindowTrace) .userStop).sources = 0
      ∧ (step (runTrace rotationWindowTrace) .userStop).nextStartTime = 0
      ∧ (step (runTrace rotationWindowTrace) .userStop).scriptProcessor = false
      ∧ (step (runTrace rotationWindowTrace) .userStop).status
          = ⟨false, false, false, none⟩
      ∧ (step (runTrace rotationWindowTrace) .userStop).sessionAge = 0
      ∧ (step (runTrace rotationWindowTrace) .userStop).isUserInitiatedStop = true
      ∧ (runFrom (step (runTrace rotationWindowTrace) .userStop)
            [Event.audioChunk, Event.timerFire]).sent
          = (step (runTrace rotationWindowTrace) .userStop).sent
      ∧ (runFrom (step (runTrace rotationWindowTrace) .userStop)
            [Event.audioChunk, Event.timerFire]).isUserInitiatedStop = true) :=
  ⟨⟨by decide, by decide⟩,
   claim5_stop_quiesces rotationWindowTrace [Event.audioChunk, Event.timerFire] 0
     (by decide) (by decide)⟩

/-! ## Audio codec round trip (claim C9) -/

theorem base64CharIndex_char : ∀ n, n < 64 →
    base64CharIndex (base64Char n) = some n := by decide

theorem base64Char_ne_pad : ∀ n, n < 64 → base64Char n ≠ '=' := by decide

theorem base64_roundTrip (bs : List Nat) (hb : ∀ b ∈ bs, b < 256) :
    base64Decode (base64Encode bs) = some bs := by
  induction bs using base64Encode.induct with
  | case1 => rfl
  | case2 b1 =>
      have hlt : b1 < 256 := hb b1 (by simp)
      have h1 := base64CharIndex_char (b1 / 4) (by omega)
      have h2 := base64CharIndex_char (b1 % 4 * 16) (by omega)
      simp [base64Encode, base64Decode, h1, h2]
      omega
  | case3 b1 b2 =>
      have hlt1 : b1 < 256 := hb b1 (by simp)
      have hlt2 : b2 < 256 := hb b2 (by simp)
      have hne3 := base64Char_ne_pad (b2 % 16 * 4) (by omega)
      have h1 := base64CharIndex_char (b1 / 4) (by omega)
      have h2 := base64CharIndex_char (b1 % 4 * 16 + b2 / 16) (by omega)
      have h3 := base64CharIndex_char (b2 % 16 * 4) (by omega)
      simp [base64Encode, base64Decode, h1, h2, h3, hne3]
      omega
  | case4 b1 b2 b3 rest ih =>
      have hlt1 : b1 < 256 := hb b1 (by simp)
      have hlt2 : b2 < 256 := hb b2 (by simp)
      have hlt3 : b3 < 256 := hb b3 (by simp)
      have hrest : ∀ b ∈ rest, b < 256 := fun b hbm => hb b (by simp [hbm])
      have hihh := ih hrest
      have hne3 := base64Char_ne_pad (b2 % 16 * 4 + b3 / 64) (by omega)
      have hne4 := base64Char_ne_pad (b3 % 64) (by omega)
      have h1 := base64CharIndex_char (b1 / 4) (by omega)
      have h2 := base64CharIndex_char (b1 % 4 * 16 + b2 / 16) (by omega)
      have h3 := base64CharIndex_char (b2 % 16 * 4 + b3 / 64) (by omega)
      have h4 := base64CharIndex_char (b3 % 64) (by omega)
      simp [base64Encode, base64Decode, h1, h2, h3, h4, hne3, hne4, hihh]
      omega

theorem bytesToInt16_int16ToBytes (i : ℤ) (h1 : -32768 ≤ i) (h2 : i < 32768) :
    bytesToInt16 (int16ToBytes i).1 (int16ToBytes i).2 = i := by
  unfold int16ToBytes bytesToInt16
  split <;> omega

theorem int16ToBytes_lt (i : ℤ) :
    (int16ToBytes i).1 < 256 ∧ (int16ToBytes i).2 < 256 := by
  unfold int16ToBytes
  constructor
  · exact Nat.mod_lt _ (by norm_num)
  · have h : (i % 65536).toNat < 65536 := by omega
    omega

theorem pairBytes_sampleBytes (samples : List ℚ) :
    pairBytes (samples.flatMap sampleBytes)
      = some (samples.map fun x => int16ToBytes (sampleToInt16 x)) := by
  induction samples with
  | nil => rfl
  | cons x rest ih =>
      rw [List.flatMap_cons, sampleBytes]
      show pairBytes ((int16ToBytes (sampleToInt16 x)).1 ::
        (int16ToBytes (sampleToInt16 x)).2 :: rest.flatMap sampleBytes) = _
      rw [pairBytes, ih]
      simp

theorem sampleBytes_lt (samples : List ℚ) :
    ∀ b ∈ samples.flatMap sampleBytes, b < 256 := by
  intro b hb
  simp only [List.mem_flatMap, sampleBytes, List.mem_cons, List.not_mem_nil,
    or_false] at hb
  obtain ⟨x, _, hb⟩ := hb
  rcases hb with rfl | rfl
  · exact (int16ToBytes_lt _).1
  · exact (int16ToBytes_lt _).2

theorem sampleToInt16_range (x : ℚ) (h1 : -1 ≤ x) (h2 : x ≤ 1) :
    -32768 ≤ sampleToInt16 x ∧ sampleToInt16 x < 32768 := by
  unfold sampleToInt16 clampSample
  rw [min_eq_right h2, max_eq_right h1]
  constructor
  · rw [Int.le_floor]
    push_cast
    linarith
  · rw [Int.floor_lt]
    push_cast
    linarith

theorem quantization_bound (x : ℚ) (h1 : -1 ≤ x) (h2 : x ≤ 1) :
    |int16ToSample (sampleToInt16 x) - x| ≤ 1 / 32767 := by
  unfold sampleToInt16 int16ToSample clampSample
  rw [min_eq_right h2, max_eq_right h1]
  have hfl : (⌊x * 32767⌋ : ℚ) ≤ x * 32767 := Int.floor_le _
  have hfu : x * 32767 < ⌊x * 32767⌋ + 1 := Int.lt_floor_add_one _
  rw [abs_le]
  constructor <;> [linarith; linarith]

theorem decode_encode_eq (samples : List ℚ)
    (hs : ∀ x ∈ samples, -1 ≤ x ∧ x ≤ 1) :
    decodeFromTransport (encodeForTransport samples)
      = some (samples.map fun x => int16ToSample (sampleToInt16 x)) := by
  have h1 : base64Decode (encodeForTransport samples).data
      = some (samples.flatMap sampleBytes) :=
    base64_roundTrip _ (sampleBytes_lt samples)
  unfold decodeFromTransport
  rw [h1]
  show Option.map (List.map fun p => int16ToSample (bytesToInt16 p.1 p.2))
      (pairBytes (samples.flatMap sampleBytes)) = _
  rw [pairBytes_sampleBytes]
  refine congrArg some ?_
  rw [List.map_map]
  apply List.map_congr_left
  intro x hx
  obtain ⟨hx1, hx2⟩ := hs x hx
  obtain ⟨hr1, hr2⟩ := sampleToInt16_range x hx1 hx2
  simp only [Function.comp]
  rw [bytesToInt16_int16ToBytes _ hr1 hr2]

/-- C9: for every sample buffer with values in `[-1, 1]`, decoding the
transport frame produced by encoding the buffer succeeds (no
`MalformedFrame`) and yields exactly the 16-bit-quantized buffer — the
buffer of the same length whose entries are `int16ToSample (sampleToInt16 x)`
pointwise — and every decoded entry differs from the original sample by at
most one quantization step `1 / 32767` of the 16-bit signed little-endian
encoding. -/
theorem claim9_codec_roundtrip (samples : List ℚ)
    (hs : ∀ x ∈ samples, -1 ≤ x ∧ x ≤ 1) :
    decodeFromTransport (encodeForTransport samples)
      = some (samples.map fun x => int16ToSample (sampleToInt16 x))
    ∧ ∀ x ∈ samples, |int16ToSample (sampleToInt16 x) - x| ≤ 1 / 32767 :=
  ⟨decode_encode_eq samples hs,
   fun x hx => quantization_bound x (hs x hx).1 (hs x hx).2⟩

theorem claim9_witness :
    (∀ x ∈ [(1 : ℚ), 0, -1], -1 ≤ x ∧ x ≤ 1)
    ∧ (decodeFromTransport (encodeForTransport [(1 : ℚ), 0, -1])
        = some (([(1 : ℚ), 0, -1]).map fun x => int16ToSample (sampleToInt16 x))
      ∧ ∀ x ∈ [(1 : ℚ), 0, -1], |int16ToSample (sampleToInt16 x) - x| ≤ 1 / 32767) :=
  ⟨by decide, claim9_codec_roundtrip _ (by decide)⟩

end AiMeeting
